import Mathlib

/-!
Verification of the concurrent site-crawler core of the `seo-cli` repository
(`src/lib/crawler.ts`, `src/lib/utils.ts` / `formatter.ts`).

The TypeScript code is shallowly embedded:
* pure helpers (`isRetryableError`, `shouldCrawl`, `generateSummary`,
  the issue derivation of `parsePage`) are translated directly;
* the external world (HTTP responses, the WHATWG `new URL` resolver, the
  cheerio HTML queries) is passed in as explicit oracles, since those live
  outside the repository;
* the cooperative concurrency of `crawl()` / `processUrl()` is embedded as a
  small-step state machine: one step is one uninterrupted synchronous section
  between two `await` suspension points of the source.  A schedule is a list
  of actions; the machine is executable so concrete schedules can be run.
-/

namespace SeoCli

/-- List-level prefix test (all string helpers below work on `String.data` so
that they reduce inside the kernel). -/
def listIsPrefixOf : List Char → List Char → Bool
  | [], _ => true
  | _ :: _, [] => false
  | a :: as, b :: bs => a == b && listIsPrefixOf as bs

/-- JavaScript `String.prototype.startsWith`. -/
def strStartsWith (s pre : String) : Bool := listIsPrefixOf pre.data s.data

/-- JavaScript `String.prototype.endsWith`. -/
def strEndsWith (s post : String) : Bool := listIsPrefixOf post.data.reverse s.data.reverse

/-- Lower-casing used by `url.toLowerCase()` / `message.toLowerCase()`. -/
def lowerStr (s : String) : String := ⟨s.data.map Char.toLower⟩

/-- JavaScript `String.prototype.trim` (leading/trailing whitespace). -/
def jsTrim (s : String) : String :=
  ⟨((s.data.dropWhile Char.isWhitespace).reverse.dropWhile Char.isWhitespace).reverse⟩

/-- JavaScript `s.substring(0, n)`. -/
def strTake (s : String) (n : Nat) : String := ⟨s.data.take n⟩

/-- JavaScript `String.prototype.includes` (substring containment). -/
def strContains (s pat : String) : Bool := decide (pat.data <:+: s.data)

/-! ### Retry policy (`formatter.ts` / `utils.ts`, `withRetry`) -/

/-- A JavaScript `Error` value: only `name` and `message` are inspected by the
retry/fetch code. -/
structure JsError where
  name : String
  message : String
deriving Repr, DecidableEq

/-- Options of `withRetry` after the `{ ...DEFAULT_RETRY_OPTIONS, ...options }`
merge, i.e. every field present. -/
structure RetryOptions where
  maxRetries : Nat
  initialDelay : Nat
  maxDelay : Nat
  backoffFactor : Nat
  retryOn : JsError → Bool

/-- Source constant `DEFAULT_RETRY_OPTIONS`. -/
def DEFAULT_RETRY_OPTIONS : RetryOptions :=
  { maxRetries := 3, initialDelay := 1000, maxDelay := 30000, backoffFactor := 2,
    retryOn := fun _ => true }

/-- Body of the `for (let attempt = 0; attempt <= maxRetries; attempt++)` loop
of `withRetry`.  The wrapped async operation is embedded as an oracle
`op : Nat → Except JsError α` giving the outcome of its `k`-th invocation
(0-based).  `remaining` is `maxRetries - attempt`, so `remaining = 0` exactly
when `attempt === opts.maxRetries`.  Returns the final outcome, the 0-based
index of the last attempt performed, and the list of back-off delays slept (in
order); the source sleeps `delay` first and only then updates
`delay = Math.min(delay * backoffFactor, maxDelay)`. -/
def withRetryAux (op : Nat → Except JsError α) (retryOn : JsError → Bool)
    (backoffFactor maxDelay : Nat) :
    Nat → Nat → Nat → Except JsError α × Nat × List Nat
  | remaining, attempt, delay =>
    match op attempt with
    | .ok v => (.ok v, attempt, [])
    | .error e =>
      match remaining with
      | 0 => (.error e, attempt, [])
      | r + 1 =>
        if retryOn e then
          let res := withRetryAux op retryOn backoffFactor maxDelay r (attempt + 1)
            (min (delay * backoffFactor) maxDelay)
          (res.1, res.2.1, delay :: res.2.2)
        else (.error e, attempt, [])

/-- Function `withRetry(fn, options)`: attempts `0..maxRetries`; on failure it stops
(re-raising the last error) when the last allowed attempt failed or when
`retryOn` rejects the error, otherwise it sleeps and retries.  The second
component is the index of the last attempt made (so `+ 1` invocations total),
the third is the list of slept delays. -/
def withRetry (op : Nat → Except JsError α) (opts : RetryOptions) :
    Except JsError α × Nat × List Nat :=
  withRetryAux op opts.retryOn opts.backoffFactor opts.maxDelay opts.maxRetries 0
    opts.initialDelay

/-- Patterns of `isRetryableError` in the source. -/
def retryablePatterns : List String :=
  ["network", "timeout", "econnreset", "econnrefused", "socket hang up",
   "etimedout", "enotfound", "429", "500", "502", "503", "504"]

/-- Predicate `isRetryableError(error)`: case-insensitive substring match of the error
message against the retryable patterns. -/
def isRetryableError (e : JsError) : Bool :=
  let message := lowerStr e.message
  retryablePatterns.any (fun pattern => strContains message pattern)

/-! ### Lemmas about `withRetry` -/

theorem withRetryAux_lastAttempt_le (op : Nat → Except JsError α) (retryOn : JsError → Bool)
    (bf md : Nat) :
    ∀ (remaining attempt delay : Nat),
      (withRetryAux op retryOn bf md remaining attempt delay).2.1 ≤ attempt + remaining := by
  intro remaining
  induction remaining with
  | zero =>
    intro attempt delay
    unfold withRetryAux
    cases h : op attempt with
    | ok v => simp
    | error e => simp
  | succ r ih =>
    intro attempt delay
    unfold withRetryAux
    cases h : op attempt with
    | ok v => simp
    | error e =>
      by_cases hr : retryOn e
      · have h2 := ih (attempt + 1) (min (delay * bf) md)
        simp only [hr, if_true]
        omega
      · simp [hr]

theorem withRetryAux_always_fail (op : Nat → Except JsError α) (retryOn : JsError → Bool)
    (bf md : Nat) (errAt : Nat → JsError)
    (hop : ∀ k, op k = .error (errAt k)) (hr : ∀ e, retryOn e = true) :
    ∀ (remaining attempt delay : Nat),
      (withRetryAux op retryOn bf md remaining attempt delay).1
          = .error (errAt (attempt + remaining)) ∧
      (withRetryAux op retryOn bf md remaining attempt delay).2.1 = attempt + remaining := by
  intro remaining
  induction remaining with
  | zero =>
    intro attempt delay
    unfold withRetryAux
    simp [hop attempt]
  | succ r ih =>
    intro attempt delay
    unfold withRetryAux
    simp only [hop attempt, hr, if_true]
    have h2 := ih (attempt + 1) (min (delay * bf) md)
    have harith : attempt + 1 + r = attempt + (r + 1) := by omega
    rw [harith] at h2
    simpa using h2

theorem withRetryAux_nonretryable (op : Nat → Except JsError α) (retryOn : JsError → Bool)
    (bf md : Nat) (errAt : Nat → JsError) (j : Nat)
    (hop : ∀ i, i ≤ j → op i = .error (errAt i))
    (hr1 : ∀ i, i < j → retryOn (errAt i) = true)
    (hr2 : retryOn (errAt j) = false) :
    ∀ (remaining attempt delay : Nat), attempt ≤ j → j ≤ attempt + remaining →
      (withRetryAux op retryOn bf md remaining attempt delay).1 = .error (errAt j) ∧
      (withRetryAux op retryOn bf md remaining attempt delay).2.1 = j := by
  intro remaining
  induction remaining with
  | zero =>
    intro attempt delay h1 h2
    have hje : attempt = j := by omega
    subst hje
    unfold withRetryAux
    simp [hop attempt le_rfl]
  | succ r ih =>
    intro attempt delay h1 h2
    unfold withRetryAux
    rcases eq_or_lt_of_le h1 with hje | hlt
    · subst hje
      simp [hop attempt le_rfl, hr2]
    · simp only [hop attempt (le_of_lt hlt), hr1 attempt hlt, if_true]
      have h3 := ih (attempt + 1) (min (delay * bf) md) hlt (by omega)
      simpa using h3

theorem withRetryAux_delays_le (op : Nat → Except JsError α) (retryOn : JsError → Bool)
    (bf md : Nat) :
    ∀ (remaining attempt delay : Nat), delay ≤ md →
      ∀ d ∈ (withRetryAux op retryOn bf md remaining attempt delay).2.2, d ≤ md := by
  intro remaining
  induction remaining with
  | zero =>
    intro attempt delay hd d
    unfold withRetryAux
    cases h : op attempt with
    | ok v => simp
    | error e => simp
  | succ r ih =>
    intro attempt delay hd d
    unfold withRetryAux
    cases h : op attempt with
    | ok v => simp
    | error e =>
      by_cases hr : retryOn e
      · simp only [hr, if_true, List.mem_cons]
        intro hmem
        rcases hmem with hmem | hmem
        · omega
        · exact ih (attempt + 1) (min (delay * bf) md) (min_le_right _ _) d hmem
      · simp [hr]

/-! ### Concrete retry instances used as witnesses -/

/-- An operation that fails on every invocation with a retryable message. -/
def alwaysFailNetwork : Nat → Except JsError Nat := fun _ => .error ⟨"Error", "network down"⟩

/-- Options with an always-true retryability predicate. -/
def optsAlwaysRetry : RetryOptions :=
  { maxRetries := 2, initialDelay := 100, maxDelay := 1000, backoffFactor := 2,
    retryOn := fun _ => true }

/-- Options whose `initialDelay` (100) exceeds `maxDelay` (10). -/
def optsBigInitial : RetryOptions :=
  { maxRetries := 2, initialDelay := 100, maxDelay := 10, backoffFactor := 2,
    retryOn := fun _ => true }

/-- C6: `withRetry` with `maxRetries = n` invokes the wrapped operation at most
`n+1` times; on an operation failing on every invocation with errors the
retryability predicate accepts, it invokes it exactly `n+1` times and re-raises
the last error; and it stops, propagating the latest error with no further
invocation, as soon as the retryability predicate returns false for that error
(here at some attempt `j`, after which the invocation count is exactly `j+1`).
The second component of `withRetry` is the 0-based index of the last attempt,
so `+ 1` is the number of invocations. -/
theorem withRetry_attempt_bounds :
    (∀ (α : Type) (op : Nat → Except JsError α) (opts : RetryOptions),
        (withRetry op opts).2.1 + 1 ≤ opts.maxRetries + 1) ∧
    (∀ (α : Type) (opts : RetryOptions) (op : Nat → Except JsError α) (errAt : Nat → JsError),
        (∀ k, op k = .error (errAt k)) → (∀ e, opts.retryOn e = true) →
        (withRetry op opts).2.1 + 1 = opts.maxRetries + 1 ∧
        (withRetry op opts).1 = .error (errAt opts.maxRetries)) ∧
    (∀ (α : Type) (opts : RetryOptions) (op : Nat → Except JsError α) (errAt : Nat → JsError)
        (j : Nat),
        j ≤ opts.maxRetries →
        (∀ i, i ≤ j → op i = .error (errAt i)) →
        (∀ i, i < j → opts.retryOn (errAt i) = true) →
        opts.retryOn (errAt j) = false →
        (withRetry op opts).2.1 + 1 = j + 1 ∧
        (withRetry op opts).1 = .error (errAt j)) := by
  refine ⟨?_, ?_, ?_⟩
  · intro α op opts
    have h := withRetryAux_lastAttempt_le op opts.retryOn opts.backoffFactor opts.maxDelay
      opts.maxRetries 0 opts.initialDelay
    unfold withRetry
    omega
  · intro α opts op errAt hop hr
    have h := withRetryAux_always_fail op opts.retryOn opts.backoffFactor opts.maxDelay
      errAt hop hr opts.maxRetries 0 opts.initialDelay
    unfold withRetry
    constructor
    · omega
    · simpa using h.1
  · intro α opts op errAt j hj hop hr1 hr2
    have h := withRetryAux_nonretryable op opts.retryOn opts.backoffFactor opts.maxDelay
      errAt j hop hr1 hr2 opts.maxRetries 0 opts.initialDelay (Nat.zero_le j) (by omega)
    unfold withRetry
    exact ⟨by omega, h.1⟩

/-- Witness for C6: concrete always-failing retryable operation with
`maxRetries = 2` makes exactly 3 invocations and re-raises the last error. -/
theorem withRetry_attempt_bounds_witness :
    (withRetry alwaysFailNetwork optsAlwaysRetry).2.1 + 1 = optsAlwaysRetry.maxRetries + 1 ∧
    (withRetry alwaysFailNetwork optsAlwaysRetry).1 = .error ⟨"Error", "network down"⟩ :=
  withRetry_attempt_bounds.2.1 Nat optsAlwaysRetry alwaysFailNetwork
    (fun _ => ⟨"Error", "network down"⟩) (fun _ => rfl) (fun _ => rfl)

/-- C10: the first back-off sleep always lasts exactly `initialDelay`
milliseconds (even when `initialDelay > maxDelay`): the
`min (delay * backoffFactor) maxDelay` cap is applied only to the second and
subsequent sleeps, and with `initialDelay = 100 > 10 = maxDelay` a sleep
strictly longer than `maxDelay` occurs (slept delays are `[100, 10]`). -/
theorem withRetry_first_delay_uncapped :
    (∀ (α : Type) (opts : RetryOptions) (op : Nat → Except JsError α) (e : JsError),
        op 0 = .error e → opts.retryOn e = true → 1 ≤ opts.maxRetries →
        (withRetry op opts).2.2.head? = some opts.initialDelay ∧
        ∀ d ∈ (withRetry op opts).2.2.tail, d ≤ opts.maxDelay) ∧
    ((withRetry alwaysFailNetwork optsBigInitial).2.2 = [100, 10] ∧
      optsBigInitial.maxDelay < 100 ∧ optsBigInitial.initialDelay = 100) := by
  constructor
  · intro α opts op e hop hret hmr
    obtain ⟨r, hr⟩ : ∃ r, opts.maxRetries = r + 1 := ⟨opts.maxRetries - 1, by omega⟩
    unfold withRetry
    rw [hr]
    unfold withRetryAux
    simp only [hop, hret, if_true]
    constructor
    · simp
    · intro d hd
      simp only [List.tail_cons] at hd
      exact withRetryAux_delays_le op opts.retryOn opts.backoffFactor opts.maxDelay
        r 1 (min (opts.initialDelay * opts.backoffFactor) opts.maxDelay)
        (min_le_right _ _) d hd
  · exact ⟨rfl, by decide, rfl⟩

/-- Witness for C10: at the concrete options with `initialDelay = 100`,
`maxDelay = 10`, the first recorded sleep is 100 ms. -/
theorem withRetry_first_delay_witness :
    (withRetry alwaysFailNetwork optsBigInitial).2.2.head? = some optsBigInitial.initialDelay ∧
    ∀ d ∈ (withRetry alwaysFailNetwork optsBigInitial).2.2.tail, d ≤ optsBigInitial.maxDelay :=
  withRetry_first_delay_uncapped.1 Nat optsBigInitial alwaysFailNetwork
    ⟨"Error", "network down"⟩ rfl rfl (by decide)

/-! ### Page fetcher (`crawler.ts`, `SiteCrawler.fetchPage`) -/

/-- Return value of a successful `fetchPage`: `{ html, status }`. -/
structure FetchResult where
  html : String
  status : Nat
deriving Repr, DecidableEq

/-- Outcome of one attempt of the inner async function passed to `withRetry`
inside `fetchPage`, as decided by the external network: either `fetch`
resolves to a response (content type header, HTTP status, body text), or the
attempt throws (an abort on timeout surfaces as an error named
`"AbortError"`). -/
inductive FetchAttempt where
  | response (contentType : String) (status : Nat) (body : String)
  | throwErr (e : JsError)

/-- The inner async function of `fetchPage` (lines 95–119): on a response whose
`content-type` does not include `text/html` it returns `{html: '', status}`;
on an HTML response it returns `{html, status}`; a thrown error propagates. -/
def fetchAttemptFn (oracle : Nat → FetchAttempt) (k : Nat) : Except JsError FetchResult :=
  match oracle k with
  | .response contentType status body =>
    if strContains contentType "text/html" then .ok ⟨body, status⟩ else .ok ⟨"", status⟩
  | .throwErr e => .error e

/-- The retry options `fetchPage` passes to `withRetry`
(`{maxRetries: 2, initialDelay: 500, retryOn: isRetryableError}` merged over
the defaults). -/
def fetchRetryOptions : RetryOptions :=
  { DEFAULT_RETRY_OPTIONS with
      maxRetries := 2, initialDelay := 500, retryOn := isRetryableError }

/-- Method `fetchPage(url)`: the retried inner fetch wrapped in `try/catch`; a caught
error named `AbortError` (timeout) becomes `{html: '', status: 408}`, any
other caught error becomes `null` (here `none`). -/
def fetchPage (oracle : Nat → FetchAttempt) : Option FetchResult :=
  match (withRetry (fetchAttemptFn oracle) fetchRetryOptions).1 with
  | .ok r => some r
  | .error e => if e.name == "AbortError" then some ⟨"", 408⟩ else none

theorem withRetry_first_ok (op : Nat → Except JsError α) (opts : RetryOptions) (v : α)
    (h : op 0 = .ok v) : (withRetry op opts).1 = .ok v := by
  unfold withRetry withRetryAux
  simp [h]

/-- C7: `fetchPage` classifies outcomes into exactly three results: a response
whose content-type is not HTML yields `some {html := "", status}` (a valid
non-null result); an unrecoverable error named `AbortError` (timeout) yields
`some {html := "", status := 408}`; any other unrecoverable fetch error yields
`none`, which is distinct from every valid response (`none ≠ some r`). -/
theorem fetchPage_classification :
    (∀ (oracle : Nat → FetchAttempt) (contentType : String) (status : Nat) (body : String),
        oracle 0 = .response contentType status body →
        strContains contentType "text/html" = false →
        fetchPage oracle = some ⟨"", status⟩) ∧
    (∀ (oracle : Nat → FetchAttempt) (e : JsError),
        (withRetry (fetchAttemptFn oracle) fetchRetryOptions).1 = .error e →
        e.name = "AbortError" →
        fetchPage oracle = some ⟨"", 408⟩) ∧
    (∀ (oracle : Nat → FetchAttempt) (e : JsError),
        (withRetry (fetchAttemptFn oracle) fetchRetryOptions).1 = .error e →
        e.name ≠ "AbortError" →
        fetchPage oracle = none ∧ ∀ r : FetchResult, fetchPage oracle ≠ some r) := by
  refine ⟨?_, ?_, ?_⟩
  · intro oracle contentType status body hor hct
    have hok : fetchAttemptFn oracle 0 = .ok ⟨"", status⟩ := by
      unfold fetchAttemptFn
      simp [hor, hct]
    unfold fetchPage
    rw [withRetry_first_ok _ _ _ hok]
  · intro oracle e herr hname
    unfold fetchPage
    rw [herr]
    simp [hname]
  · intro oracle e herr hname
    unfold fetchPage
    rw [herr]
    simp [hname]

/-- A network that always responds 200 with a `text/plain` content type. -/
def plainTextOracle : Nat → FetchAttempt := fun _ => .response "text/plain" 200 "hello"

/-- Witness for C7: a 200 response with content-type `text/plain` yields
`some {html := "", status := 200}` from the fetcher. -/
theorem fetchPage_classification_witness :
    fetchPage plainTextOracle = some ⟨"", 200⟩ :=
  fetchPage_classification.1 plainTextOracle "text/plain" 200 "hello" rfl (by decide)

/-! ### Data model (`types/index.ts`: `CrawlResult`, `CrawlSummary`) -/

/-- An entry of `CrawlResult.images`. -/
structure ImageInfo where
  src : String
  alt : Option String
deriving Repr, DecidableEq

/-- Record `CrawlResult`: the per-page result. -/
structure CrawlResult where
  url : String
  status : Nat
  title : Option String
  metaDescription : Option String
  h1 : Option String
  issues : List String
  links : List String
  images : List ImageInfo
deriving Repr, DecidableEq

/-- An entry of `CrawlSummary.brokenLinks`. -/
structure BrokenLink where
  url : String
  status : Nat
  foundOn : String
deriving Repr, DecidableEq

/-- An entry of `CrawlSummary.missingAltText`. -/
structure AltTextEntry where
  page : String
  image : String
deriving Repr, DecidableEq

/-- An entry of `CrawlSummary.duplicateTitles`. -/
structure DuplicateTitle where
  title : String
  pages : List String
deriving Repr, DecidableEq

/-- Record `CrawlSummary`. -/
structure CrawlSummary where
  totalPages : Nat
  brokenLinks : List BrokenLink
  missingTitles : List String
  missingMetaDescriptions : List String
  missingH1s : List String
  missingAltText : List AltTextEntry
  duplicateTitles : List DuplicateTitle
deriving Repr, DecidableEq

/-! ### Page parser (`crawler.ts`, `SiteCrawler.parsePage`) -/

/-- The cheerio query results for one loaded HTML document, i.e. everything
`parsePage` reads from `$`: `$('title').first().text()`,
`$('meta[name="description"]').attr('content')`, `$('h1').first().text()`,
the `href` of every `a[href]` and the `(src, alt)` of every `img[src]`, in
document order.  cheerio itself is an external library, so its output is the
oracle here. -/
structure Doc where
  titleText : String
  metaDescription : Option String
  h1Text : String
  anchorHrefs : List String
  imageTags : List (String × Option String)
deriving Repr, DecidableEq

/-- JavaScript `s.trim() || null`. -/
def trimOrNone (s : String) : Option String :=
  if jsTrim s = "" then none else some (jsTrim s)

/-- JavaScript truthiness test `!x` for a `string | null | undefined` value:
true exactly on `null`/`undefined`/`''`. -/
def strOptFalsy : Option String → Bool
  | none => true
  | some s => s == ""

/-- The alt-text check `!alt || alt.trim() === ''` of the image loop. -/
def altMissing : Option String → Bool
  | none => true
  | some a => a == "" || jsTrim a == ""

/-- The stored alt value `alt?.trim() || null`. -/
def altStored : Option String → Option String
  | none => none
  | some a => trimOrNone a

/-- The `$('img[src]').each` loop of `parsePage` (lines 167–181): builds the
`images` list and the alt-text issues in document order.  `resolveUrl src url`
embeds `new URL(src, url).href`, with `none` for a throw.  Unlike the link
loop, the source has NO try/catch here, so an unresolvable `src` propagates an
exception out of `parsePage` (`.error ()`). -/
def buildImages (resolveUrl : String → String → Option String) (url : String) :
    List (String × Option String) → Except Unit (List ImageInfo × List String)
  | [] => .ok ([], [])
  | (src, alt) :: rest =>
    if src = "" then buildImages resolveUrl url rest
    else
      match resolveUrl src url with
      | none => .error ()
      | some absoluteSrc =>
        match buildImages resolveUrl url rest with
        | .error e => .error e
        | .ok (imgs, iss) =>
          .ok (⟨absoluteSrc, altStored alt⟩ :: imgs,
            (if altMissing alt then
              ["Image missing alt text: " ++ strTake absoluteSrc 50 ++ "..."]
             else []) ++ iss)

/-- Method `parsePage(url, html, status)` over the cheerio oracle `doc` and the URL
resolver oracle.  The link loop wraps `new URL(href, url)` in try/catch
(unresolvable hrefs silently skipped); the image loop does not, so its failure
escapes as `.error ()`. -/
def parsePage (resolveUrl : String → String → Option String)
    (url : String) (doc : Doc) (status : Nat) : Except Unit CrawlResult :=
  let title := trimOrNone doc.titleText
  let metaDescription := match doc.metaDescription with
    | none => none
    | some c => trimOrNone c
  let h1 := trimOrNone doc.h1Text
  let issues :=
    (if title.isNone then ["Missing title tag"] else []) ++
    (if metaDescription.isNone then ["Missing meta description"] else []) ++
    (if h1.isNone then ["Missing H1 tag"] else []) ++
    (match title with
     | some t => if t.length > 60 then ["Title too long (>60 chars)"] else []
     | none => []) ++
    (match metaDescription with
     | some m => if m.length > 160 then ["Meta description too long (>160 chars)"] else []
     | none => [])
  let links := doc.anchorHrefs.filterMap (fun href =>
    if href ≠ "" && !strStartsWith href "#" && !strStartsWith href "javascript:" &&
        !strStartsWith href "mailto:" && !strStartsWith href "tel:" &&
        !strStartsWith href "data:" && !strStartsWith href "vbscript:" then
      resolveUrl href url
    else none)
  match buildImages resolveUrl url doc.imageTags with
  | .error e => .error e
  | .ok (images, imageIssues) =>
    .ok { url := url, status := status, title := title,
          metaDescription := metaDescription, h1 := h1,
          issues := issues ++ imageIssues, links := links, images := images }

/-! ### Summary aggregator (`crawler.ts`, `SiteCrawler.generateSummary`)

The source is one `for (const result of results)` loop pushing into six
independent accumulators plus a title map; since no accumulator is read by
another branch of the loop body, it is embedded as one recursion per
accumulator, each mirroring its push condition verbatim. -/

/-- The broken test `result.status >= 400 || result.status === 0`. -/
def isBroken (r : CrawlResult) : Bool := 400 ≤ r.status || r.status == 0

/-- The `brokenLinks` accumulation: for each broken result, `foundOn` is
`results.find(r => r.links.includes(result.url))?.url || 'unknown'`. -/
def brokenLinksOf (all : List CrawlResult) : List CrawlResult → List BrokenLink
  | [] => []
  | r :: rest =>
    (if isBroken r then
      [⟨r.url, r.status,
        match all.find? (fun q => q.links.contains r.url) with
        | some q => if q.url == "" then "unknown" else q.url
        | none => "unknown"⟩]
     else []) ++ brokenLinksOf all rest

/-- The `missingTitles` accumulation (200-status results with falsy title). -/
def missingTitlesOf : List CrawlResult → List String
  | [] => []
  | r :: rest =>
    (if r.status == 200 && strOptFalsy r.title then [r.url] else []) ++ missingTitlesOf rest

/-- The `missingMetaDescriptions` accumulation. -/
def missingMetaDescriptionsOf : List CrawlResult → List String
  | [] => []
  | r :: rest =>
    (if r.status == 200 && strOptFalsy r.metaDescription then [r.url] else []) ++
      missingMetaDescriptionsOf rest

/-- The `missingH1s` accumulation. -/
def missingH1sOf : List CrawlResult → List String
  | [] => []
  | r :: rest =>
    (if r.status == 200 && strOptFalsy r.h1 then [r.url] else []) ++ missingH1sOf rest

/-- The `missingAltText` accumulation (images with falsy alt on 200 pages). -/
def missingAltTextOf : List CrawlResult → List AltTextEntry
  | [] => []
  | r :: rest =>
    (if r.status == 200 then
      r.images.filterMap (fun img =>
        if strOptFalsy img.alt then some ⟨r.url, img.src⟩ else none)
     else []) ++ missingAltTextOf rest

/-- Lookup `titleMap.get(title)` on the insertion-ordered JS `Map`. -/
def mapGetTM (m : List (String × List String)) (k : String) : Option (List String) :=
  (m.find? (fun p => p.1 == k)).map (fun p => p.2)

/-- Update `titleMap.set(title, pages)`: existing keys keep their position, new keys
append. -/
def mapSetTM (m : List (String × List String)) (k : String) (v : List String) :
    List (String × List String) :=
  if m.any (fun p => p.1 == k) then
    m.map (fun p => if p.1 == k then (k, v) else p)
  else m ++ [(k, v)]

/-- The duplicate-title tracking of the loop: for each 200-status result with
a truthy title, append its url to `titleMap[title]`. -/
def titleMapOf : List (String × List String) → List CrawlResult → List (String × List String)
  | m, [] => m
  | m, r :: rest =>
    if r.status == 200 && !strOptFalsy r.title then
      let t := r.title.getD ""
      titleMapOf (mapSetTM m t ((mapGetTM m t).getD [] ++ [r.url])) rest
    else titleMapOf m rest

/-- The post-loop `duplicateTitles` pass: entries of the title map with ≥ 2
pages, in map iteration (insertion) order. -/
def duplicateTitlesOf (m : List (String × List String)) : List DuplicateTitle :=
  (m.filter (fun p => p.2.length > 1)).map (fun p => ⟨p.1, p.2⟩)

/-- Method `generateSummary(results)`. -/
def generateSummary (results : List CrawlResult) : CrawlSummary :=
  { totalPages := (results.filter (fun r => r.status == 200)).length
    brokenLinks := brokenLinksOf results results
    missingTitles := missingTitlesOf results
    missingMetaDescriptions := missingMetaDescriptionsOf results
    missingH1s := missingH1sOf results
    missingAltText := missingAltTextOf results
    duplicateTitles := duplicateTitlesOf (titleMapOf [] results) }

/-! ### C9: the worked summary example -/

/-- Page A: 200, no title, links to D. -/
def resultA : CrawlResult := ⟨"A", 200, none, none, none, [], ["D"], []⟩

/-- Page B: 200, title "Same". -/
def resultB : CrawlResult := ⟨"B", 200, some "Same", none, none, [], [], []⟩

/-- Page C: 200, title "Same". -/
def resultC : CrawlResult := ⟨"C", 200, some "Same", none, none, [], [], []⟩

/-- Page D: 404. -/
def resultD : CrawlResult := ⟨"D", 404, none, none, none, [], [], []⟩

/-- C9: on the worked example `[A(200, no title, links D), B(200, "Same"),
C(200, "Same"), D(404)]`, `generateSummary` returns `totalPages = 3`,
`missingTitles = [A]`, `duplicateTitles = [{title: "Same", pages: [B, C]}]`
and `brokenLinks = [{url: D, status: 404, foundOn: A}]`. -/
theorem generateSummary_worked_example :
    (generateSummary [resultA, resultB, resultC, resultD]).totalPages = 3 ∧
    (generateSummary [resultA, resultB, resultC, resultD]).missingTitles = ["A"] ∧
    (generateSummary [resultA, resultB, resultC, resultD]).duplicateTitles
        = [⟨"Same", ["B", "C"]⟩] ∧
    (generateSummary [resultA, resultB, resultC, resultD]).brokenLinks
        = [⟨"D", 404, "A"⟩] := by
  decide

/-! ### C8: broken-link attribution -/

/-- Attribution rule actually implemented: the first result in the whole
collection — possibly the broken result itself, of any status — whose `links`
contain the broken url; `"unknown"` when there is none (or when the referrer's
own url is the empty string, which JS `|| 'unknown'` treats as falsy). -/
def brokenFoundOn (results : List CrawlResult) (url : String) : String :=
  match results.find? (fun q => q.links.contains url) with
  | some q => if q.url == "" then "unknown" else q.url
  | none => "unknown"

theorem brokenLinksOf_eq (all : List CrawlResult) :
    ∀ l, brokenLinksOf all l =
      (l.filter isBroken).map (fun r => ⟨r.url, r.status, brokenFoundOn all r.url⟩) := by
  intro l
  induction l with
  | nil => rfl
  | cons r rest ih =>
    unfold brokenLinksOf
    by_cases hb : isBroken r
    · simp [hb, ih, brokenFoundOn]
    · simp [hb, ih]

/-- A 404 page whose own outbound links contain its own url. -/
def selfBroken : CrawlResult := ⟨"A", 404, none, none, none, [], ["A"], []⟩

/-- Counterexample for C8: on `[selfBroken]` the broken result `A` is
attributed to itself (`foundOn = "A"`), although no OTHER result links to it
(the claim predicts `"unknown"`) and the referring result found has status
404, not 200. -/
theorem generateSummary_foundOn_self_cex :
    (generateSummary [selfBroken]).brokenLinks = [⟨"A", 404, "A"⟩] ∧
    selfBroken.status ≠ 200 ∧ "A" ≠ "unknown" := by
  decide

/-- C8 (amended): `generateSummary` attributes each broken result
(status ≥ 400 or status = 0) to the first result of the collection — possibly
the broken result itself, of any status, not necessarily 200 — whose
`links` contain the broken result's url, with `"unknown"` when no such result
exists. -/
theorem generateSummary_brokenLinks_characterization :
    ∀ results : List CrawlResult,
      (generateSummary results).brokenLinks =
        (results.filter isBroken).map
          (fun r => ⟨r.url, r.status, brokenFoundOn results r.url⟩) :=
  fun results => brokenLinksOf_eq results results

/-! ### Crawl frontier (`crawler.ts`, `SiteCrawler.crawl` / `processUrl`)

The cooperative concurrency of the source is embedded as a small-step state
machine.  All mutation of `visited` / `results` / `queue` / `activeRequests`
happens in synchronous sections between `await` points, so one action of the
machine is one such uninterrupted section; a schedule (list of actions) covers
every interleaving the JavaScript event loop can produce. -/

/-- The `skipExtensions` list of `shouldCrawl`. -/
def skipExtensions : List String :=
  [".pdf", ".jpg", ".jpeg", ".png", ".gif", ".svg", ".webp", ".ico", ".css",
   ".js", ".xml", ".json", ".zip", ".mp4", ".mp3", ".wav", ".avi", ".mov"]

/-- The `skipPatterns` list of `shouldCrawl`. -/
def skipPatterns : List String :=
  ["/wp-admin", "/wp-content", "/wp-includes", "/feed", "/rss", "/xmlrpc"]

/-- Predicate `shouldCrawl(url)`: skip known non-HTML extensions and non-page path
patterns (case-insensitive). -/
def shouldCrawl (url : String) : Bool :=
  let lowerUrl := lowerStr url
  if skipExtensions.any (fun ext => strEndsWith lowerUrl ext) then false
  else if skipPatterns.any (fun pattern => strContains lowerUrl pattern) then false
  else true

/-- A queue item `{url, depth, foundOn}`. -/
structure QueueItem where
  url : String
  depth : Nat
  foundOn : String
deriving Repr, DecidableEq

/-- What the external network makes of one crawled URL: `fetchPage` either
returns `null` (`.unreachable`) or `{html, status}`, the loaded HTML being
presented as its cheerio view `doc`.  (The retry/timeout mechanics inside
`fetchPage` are verified separately; the frontier only observes this
outcome.) -/
inductive PageOutcome where
  | unreachable
  | fetched (status : Nat) (doc : Doc)

/-- One crawl's configuration: the crawler options plus the external oracles —
`normalizeUrl` (the `new URL(url, baseOrigin)` round-trip with hash and
trailing-slash stripping), `isInternalUrl` (hostname comparison),
`resolveUrl` (`new URL(ref, base).href`, `none` for a throw) and the
network. -/
structure CrawlConfig where
  maxDepth : Nat
  maxPages : Nat
  concurrency : Nat
  normalizeUrl : String → String
  isInternalUrl : String → Bool
  resolveUrl : String → String → Option String
  world : String → PageOutcome
  startUrl : String

/-- The mutable crawler state: `visited` and the insertion-ordered `results`
map mirror the `Set`/`Map` fields, `queue` the pending queue, `active` the
in-flight fetches (items whose `processUrl` passed its synchronous prefix and
is awaiting `fetchPage`), and `crashed` counts `processUrl` calls that threw
after incrementing `activeRequests` (the decrement at line 239 is then never
executed).  The source's `activeRequests` equals `active.length + crashed`. -/
structure MState where
  visited : List String
  results : List (String × CrawlResult)
  queue : List QueueItem
  active : List QueueItem
  crashed : Nat
deriving Repr, DecidableEq

/-- Constructor: seed the queue with the normalized start URL at depth 0. -/
def initState (cfg : CrawlConfig) : MState :=
  ⟨[], [], [⟨cfg.normalizeUrl cfg.startUrl, 0, "start"⟩], [], 0⟩

/-- The `activeRequests` counter as observed by the admission loop. -/
def activeRequests (s : MState) : Nat := s.active.length + s.crashed

/-- The synthetic result stored when `fetchPage` returns `null`
(lines 227–236). -/
def failedResult (url : String) : CrawlResult :=
  ⟨url, 0, none, none, none, ["Failed to fetch page"], [], []⟩

/-- The link-expansion loop of `processUrl` (lines 210–223): normalize each
outbound link and keep it if internal, not yet visited and crawlable.  The
visited check uses the visited set as of this completion and pushes do not
update it, so duplicate links of one page are pushed repeatedly. -/
def expandLinks (cfg : CrawlConfig) (visited : List String) (item : QueueItem)
    (links : List String) : List QueueItem :=
  links.filterMap (fun link =>
    let normalizedLink := cfg.normalizeUrl link
    if cfg.isInternalUrl normalizedLink && !visited.contains normalizedLink &&
        shouldCrawl normalizedLink then
      some ⟨normalizedLink, item.depth + 1, item.url⟩
    else none)

/-- A scheduler action.  `schedule` is one iteration of the inner admission
loop of `crawl()` (lines 249–254) together with the synchronous prefix of
`processUrl` (lines 196–200: visited/budget re-check, mark visited, increment
`activeRequests`) — no `await` separates these.  `finish u` is the synchronous
continuation of `processUrl` for the in-flight item with this url, resumed
when its `fetchPage` promise settles (lines 204–243). -/
inductive Action where
  | schedule
  | finish (url : String)
deriving Repr, DecidableEq

/-- One step of the machine; `none` when the action is not enabled (admission
guard fails, queue empty, or no such in-flight fetch). -/
def step (cfg : CrawlConfig) (s : MState) : Action → Option MState
  | .schedule =>
    match s.queue with
    | [] => none
    | item :: rest =>
      if activeRequests s < cfg.concurrency ∧ s.results.length < cfg.maxPages then
        if s.visited.contains item.url then
          some { s with queue := rest }
        else
          some { s with
                 queue := rest
                 visited := item.url :: s.visited
                 active := item :: s.active }
      else none
  | .finish u =>
    match s.active.find? (fun it => it.url == u) with
    | none => none
    | some item =>
      match cfg.world item.url with
      | .unreachable =>
        some { s with
               active := s.active.eraseP (fun it => it.url == u)
               results := s.results ++ [(item.url, failedResult item.url)] }
      | .fetched status doc =>
        match parsePage cfg.resolveUrl item.url doc status with
        | .error _ =>
          some { s with
                 active := s.active.eraseP (fun it => it.url == u)
                 crashed := s.crashed + 1 }
        | .ok result =>
          some { s with
                 active := s.active.eraseP (fun it => it.url == u)
                 results := s.results ++ [(item.url, result)]
                 queue := s.queue ++
                   (if item.depth < cfg.maxDepth ∧ status = 200 then
                     expandLinks cfg s.visited item result.links
                    else []) }

/-- Run a schedule from a state. -/
def steps (cfg : CrawlConfig) : MState → List Action → Option MState
  | s, [] => some s
  | s, a :: tr =>
    match step cfg s a with
    | none => none
    | some next => steps cfg next tr

/-- Reachability from the freshly constructed crawler. -/
def Reachable (cfg : CrawlConfig) (s : MState) : Prop :=
  ∃ tr, steps cfg (initState cfg) tr = some s

/-- The exit condition of the outer `while` loop of `crawl()`:
`queue.length == 0 && activeRequests == 0`; `crawl()` resolves exactly when
this becomes true. -/
def loopDone (s : MState) : Bool :=
  s.queue.isEmpty && activeRequests s == 0

/-- The urls whose fetch is actually launched along a schedule.  `processUrl`
adds a url to `visited` exactly when it proceeds to fetch it, so the launched
urls are those entering `visited` at each step. -/
def launches (cfg : CrawlConfig) : MState → List Action → List String
  | _, [] => []
  | s, a :: tr =>
    match step cfg s a with
    | none => []
    | some next =>
      next.visited.filter (fun u => !s.visited.contains u) ++ launches cfg next tr

/-! ### Case-analysis lemmas for the step function -/

theorem step_schedule_cases (cfg : CrawlConfig) (s next : MState)
    (h : step cfg s .schedule = some next) :
    ∃ item rest, s.queue = item :: rest ∧
      activeRequests s < cfg.concurrency ∧ s.results.length < cfg.maxPages ∧
      ((s.visited.contains item.url = true ∧ next = { s with queue := rest }) ∨
       (s.visited.contains item.url = false ∧
         next = { s with
                  queue := rest
                  visited := item.url :: s.visited
                  active := item :: s.active })) := by
  obtain ⟨item, rest, hq⟩ : ∃ item rest, s.queue = item :: rest := by
    cases hq : s.queue with
    | nil => simp [step, hq] at h
    | cons a b => exact ⟨a, b, rfl⟩
  simp only [step, hq] at h
  by_cases hg : activeRequests s < cfg.concurrency ∧ s.results.length < cfg.maxPages
  · rw [if_pos hg] at h
    by_cases hv : s.visited.contains item.url = true
    · rw [if_pos hv] at h
      injection h with h
      exact ⟨item, rest, hq, hg.1, hg.2, .inl ⟨hv, h.symm⟩⟩
    · rw [if_neg hv] at h
      injection h with h
      exact ⟨item, rest, hq, hg.1, hg.2, .inr ⟨by simpa using hv, h.symm⟩⟩
  · rw [if_neg hg] at h
    exact absurd h (by simp)

theorem step_finish_cases (cfg : CrawlConfig) (s next : MState) (u : String)
    (h : step cfg s (.finish u) = some next) :
    ∃ item, s.active.find? (fun it => it.url == u) = some item ∧
      ((cfg.world item.url = .unreachable ∧
        next = { s with
                 active := s.active.eraseP (fun it => it.url == u)
                 results := s.results ++ [(item.url, failedResult item.url)] }) ∨
       (∃ status doc, cfg.world item.url = .fetched status doc ∧
         parsePage cfg.resolveUrl item.url doc status = .error () ∧
         next = { s with
                  active := s.active.eraseP (fun it => it.url == u)
                  crashed := s.crashed + 1 }) ∨
       (∃ status doc result, cfg.world item.url = .fetched status doc ∧
         parsePage cfg.resolveUrl item.url doc status = .ok result ∧
         next = { s with
                  active := s.active.eraseP (fun it => it.url == u)
                  results := s.results ++ [(item.url, result)]
                  queue := s.queue ++
                    (if item.depth < cfg.maxDepth ∧ status = 200 then
                      expandLinks cfg s.visited item result.links
                     else []) })) := by
  obtain ⟨item, hfind⟩ : ∃ item, s.active.find? (fun it => it.url == u) = some item := by
    cases hfind : s.active.find? (fun it => it.url == u) with
    | none => simp [step, hfind] at h
    | some it => exact ⟨it, rfl⟩
  simp only [step, hfind] at h
  cases hw : cfg.world item.url with
  | unreachable =>
    simp only [hw] at h
    injection h with h
    exact ⟨item, hfind, .inl ⟨hw, h.symm⟩⟩
  | fetched status doc =>
    simp only [hw] at h
    cases hp : parsePage cfg.resolveUrl item.url doc status with
    | error e =>
      simp only [hp] at h
      injection h with h
      cases e
      exact ⟨item, hfind, .inr (.inl ⟨status, doc, hw, hp, h.symm⟩)⟩
    | ok result =>
      simp only [hp] at h
      injection h with h
      exact ⟨item, hfind, .inr (.inr ⟨status, doc, result, hw, hp, h.symm⟩)⟩

/-- Preservation of a predicate along every schedule. -/
theorem steps_preserve (cfg : CrawlConfig) (P : MState → Prop)
    (hstep : ∀ s a next, step cfg s a = some next → P s → P next) :
    ∀ (tr : List Action) (s next : MState), steps cfg s tr = some next → P s → P next := by
  intro tr
  induction tr with
  | nil =>
    intro s next h hp
    unfold steps at h
    injection h with h
    exact h ▸ hp
  | cons a tr ih =>
    intro s next h hp
    unfold steps at h
    split at h
    · exact absurd h (by simp)
    · rename_i mid hmid
      exact ih mid next h (hstep s a mid hmid hp)

/-- An invariant holding at the initial state and preserved by `step` holds at
every reachable state. -/
theorem reachable_invariant (cfg : CrawlConfig) (P : MState → Prop)
    (hinit : P (initState cfg))
    (hstep : ∀ s a next, step cfg s a = some next → P s → P next) :
    ∀ s, Reachable cfg s → P s := by
  intro s hr
  obtain ⟨tr, htr⟩ := hr
  exact steps_preserve cfg P hstep tr (initState cfg) s htr hinit

/-- A list is a permutation of its first `p`-match consed onto its
`eraseP p`. -/
theorem find?_perm_eraseP (p : α → Bool) :
    ∀ (l : List α) (a : α), l.find? p = some a → l.Perm (a :: l.eraseP p) := by
  intro l
  induction l with
  | nil => intro a h; exact absurd h (by simp)
  | cons x t ih =>
    intro a h
    by_cases hx : p x
    · rw [List.find?_cons_of_pos _ hx] at h
      injection h with h
      subst h
      simp [List.eraseP_cons, hx]
    · have hxf : p x = false := by simpa using hx
      rw [List.find?_cons_of_neg _ hx] at h
      simp only [List.eraseP_cons, hxf, cond_false]
      exact ((ih a h).cons x).trans (List.Perm.swap a x _)

theorem length_eraseP_of_find? (p : α → Bool) (l : List α) (a : α)
    (h : l.find? p = some a) : (l.eraseP p).length + 1 = l.length := by
  have hp := (find?_perm_eraseP p l a h).length_eq
  simpa using hp.symm

/-! ### C1: the page budget -/

theorem budget_inv_step (cfg : CrawlConfig) (s : MState) (a : Action) (next : MState)
    (h : step cfg s a = some next)
    (hs : s.results.length + s.active.length ≤ cfg.maxPages + cfg.concurrency - 1) :
    next.results.length + next.active.length ≤ cfg.maxPages + cfg.concurrency - 1 := by
  cases a with
  | schedule =>
    obtain ⟨item, rest, hq, hact, hres, hcase⟩ := step_schedule_cases cfg s next h
    simp only [activeRequests] at hact
    rcases hcase with ⟨hv, rfl⟩ | ⟨hv, rfl⟩
    · simpa using hs
    · simp only [List.length_cons]
      omega
  | finish u =>
    obtain ⟨item, hfind, hcase⟩ := step_finish_cases cfg s next u h
    have hlen := length_eraseP_of_find? _ _ _ hfind
    rcases hcase with ⟨hw, rfl⟩ | ⟨status, doc, hw, hp, rfl⟩ |
      ⟨status, doc, result, hw, hp, rfl⟩
    · simp only [List.length_append, List.length_cons, List.length_nil]
      omega
    · dsimp only
      omega
    · simp only [List.length_append, List.length_cons, List.length_nil]
      omega

/-- A page document with the given anchors and nothing else. -/
def simpleDoc (hrefs : List String) : Doc := ⟨"", none, "", hrefs, []⟩

/-- Network for the budget counterexample: the start page `a` links to `b` and
`c`; every page is HTML, status 200. -/
def overrunWorld : String → PageOutcome := fun u =>
  if u = "a" then .fetched 200 (simpleDoc ["b", "c"]) else .fetched 200 (simpleDoc [])

/-- Crawler options `maxPages = 2`, `concurrency = 2` over `overrunWorld`,
with identity normalizer/resolver and an all-internal host check. -/
def overrunConfig : CrawlConfig :=
  { maxDepth := 3
    maxPages := 2
    concurrency := 2
    normalizeUrl := fun u => u
    isInternalUrl := fun _ => true
    resolveUrl := fun href _ => some href
    world := overrunWorld
    startUrl := "a" }

/-- A JavaScript-feasible schedule: admit `a`; its fetch completes during the
scheduler's sleep (storing result 1 of 2 and queueing `b`, `c`); the admission
loop then admits both `b` and `c` in one burst — each passes the budget check
`results.size < maxPages` (`1 < 2`) — and both complete. -/
def overrunTrace : List Action :=
  [.schedule, .finish "a", .schedule, .schedule, .finish "b", .finish "c"]

/-- Counterexample for C1 as stated: after `overrunTrace` the results map
holds 3 entries although `maxPages = 2`. -/
theorem crawl_budget_overrun_cex :
    (steps overrunConfig (initState overrunConfig) overrunTrace).map
        (fun s => s.results.length) = some 3 ∧
    overrunConfig.maxPages = 2 := by
  constructor
  · rfl
  · rfl

/-- C1 (amended): at every reachable state of every crawl,
`results.size ≤ maxPages + concurrency − 1`.  (The claimed hard bound
`results.size ≤ maxPages` fails, see the counterexample: concurrently admitted
fetches each pass the budget check before any of them stores a result, and the
completion path stores without re-checking the budget.) -/
theorem crawl_results_bounded_by_budget_plus_concurrency
    (cfg : CrawlConfig) (s : MState) (h : Reachable cfg s) :
    s.results.length ≤ cfg.maxPages + cfg.concurrency - 1 := by
  have hinv := reachable_invariant cfg
    (fun s => s.results.length + s.active.length ≤ cfg.maxPages + cfg.concurrency - 1)
    (by simp [initState]) (fun s a next hst hp => budget_inv_step cfg s a next hst hp) s h
  omega

/-- Witness: the bound instantiated at a concrete crawl configuration and a
concrete reachable state. -/
theorem crawl_results_bound_witness :
    (initState overrunConfig).results.length ≤
      overrunConfig.maxPages + overrunConfig.concurrency - 1 :=
  crawl_results_bounded_by_budget_plus_concurrency overrunConfig (initState overrunConfig)
    ⟨[], rfl⟩

/-! ### C5: the depth ceiling -/

theorem expandLinks_depth (cfg : CrawlConfig) (visited : List String) (item : QueueItem)
    (links : List String) (it : QueueItem) (h : it ∈ expandLinks cfg visited item links) :
    it.depth = item.depth + 1 := by
  unfold expandLinks at h
  simp only [List.mem_filterMap] at h
  obtain ⟨link, hmem, hf⟩ := h
  split at hf
  · injection hf with hf
    subst hf
    rfl
  · exact absurd hf (by simp)

theorem depth_inv_step (cfg : CrawlConfig) (s : MState) (a : Action) (next : MState)
    (h : step cfg s a = some next)
    (hs : (∀ it ∈ s.queue, it.depth ≤ cfg.maxDepth) ∧
          (∀ it ∈ s.active, it.depth ≤ cfg.maxDepth)) :
    (∀ it ∈ next.queue, it.depth ≤ cfg.maxDepth) ∧
    (∀ it ∈ next.active, it.depth ≤ cfg.maxDepth) := by
  obtain ⟨hsq, hsa⟩ := hs
  cases a with
  | schedule =>
    obtain ⟨item, rest, hq, _, _, hcase⟩ := step_schedule_cases cfg s next h
    rcases hcase with ⟨hv, rfl⟩ | ⟨hv, rfl⟩
    · exact ⟨fun it hit => hsq it (by rw [hq]; exact List.mem_cons_of_mem _ hit), hsa⟩
    · refine ⟨fun it hit => hsq it (by rw [hq]; exact List.mem_cons_of_mem _ hit), ?_⟩
      intro it hit
      rcases List.mem_cons.mp hit with rfl | hit
      · exact hsq it (by rw [hq]; exact List.mem_cons_self _ _)
      · exact hsa it hit
  | finish u =>
    obtain ⟨item, hfind, hcase⟩ := step_finish_cases cfg s next u h
    have hsub : ∀ it ∈ s.active.eraseP (fun x => x.url == u), it ∈ s.active :=
      fun it hit => List.mem_of_mem_eraseP hit
    rcases hcase with ⟨hw, rfl⟩ | ⟨status, doc, hw, hp, rfl⟩ |
      ⟨status, doc, result, hw, hp, rfl⟩
    · exact ⟨hsq, fun it hit => hsa it (hsub it hit)⟩
    · exact ⟨hsq, fun it hit => hsa it (hsub it hit)⟩
    · refine ⟨?_, fun it hit => hsa it (hsub it hit)⟩
      intro it hit
      dsimp only at hit
      rcases List.mem_append.mp hit with hit | hit
      · exact hsq it hit
      · by_cases hcond : item.depth < cfg.maxDepth ∧ status = 200
        · rw [if_pos hcond] at hit
          have hd := expandLinks_depth cfg s.visited item result.links it hit
          have hia := hsa item (List.mem_of_find?_eq_some hfind)
          omega
        · rw [if_neg hcond] at hit
          exact absurd hit (by simp)

/-- C5: at every reachable state, every queue target ever created and every
target dequeued for fetching has depth ≤ `maxDepth`: outbound links are
enqueued (at `depth + 1`) only by the `step` branch guarded by
`depth < maxDepth ∧ status = 200`, so links discovered on a depth-`maxDepth`
page are dropped, never queued. -/
theorem crawl_depth_ceiling (cfg : CrawlConfig) (s : MState) (h : Reachable cfg s) :
    (∀ it ∈ s.queue, it.depth ≤ cfg.maxDepth) ∧
    (∀ it ∈ s.active, it.depth ≤ cfg.maxDepth) := by
  refine reachable_invariant cfg
    (fun s => (∀ it ∈ s.queue, it.depth ≤ cfg.maxDepth) ∧
              (∀ it ∈ s.active, it.depth ≤ cfg.maxDepth)) ?_
    (fun s a next hst hp => depth_inv_step cfg s a next hst hp) s h
  constructor
  · intro it hit
    simp only [initState, List.mem_singleton] at hit
    subst hit
    exact Nat.zero_le _
  · intro it hit
    simp [initState] at hit

/-- Witness for C5 at a concrete crawl configuration and reachable state. -/
theorem crawl_depth_ceiling_witness :
    (∀ it ∈ (initState overrunConfig).queue, it.depth ≤ overrunConfig.maxDepth) ∧
    (∀ it ∈ (initState overrunConfig).active, it.depth ≤ overrunConfig.maxDepth) :=
  crawl_depth_ceiling overrunConfig (initState overrunConfig) ⟨[], rfl⟩

/-! ### C4: single-flight visitation -/

theorem contains_iff_mem (l : List String) (u : String) : l.contains u = true ↔ u ∈ l :=
  List.elem_iff

theorem step_visited_mono (cfg : CrawlConfig) (s next : MState) (a : Action)
    (h : step cfg s a = some next) : ∀ u, u ∈ s.visited → u ∈ next.visited := by
  cases a with
  | schedule =>
    obtain ⟨item, rest, hq, _, _, hcase⟩ := step_schedule_cases cfg s next h
    rcases hcase with ⟨hv, rfl⟩ | ⟨hv, rfl⟩
    · exact fun u hu => hu
    · exact fun u hu => List.mem_cons_of_mem _ hu
  | finish w =>
    obtain ⟨item, hfind, hcase⟩ := step_finish_cases cfg s next w h
    rcases hcase with ⟨hw, rfl⟩ | ⟨status, doc, hw, hp, rfl⟩ |
      ⟨status, doc, result, hw, hp, rfl⟩ <;> exact fun u hu => hu

theorem step_visited_shape (cfg : CrawlConfig) (s next : MState) (a : Action)
    (h : step cfg s a = some next) :
    next.visited = s.visited ∨ ∃ x, next.visited = x :: s.visited := by
  cases a with
  | schedule =>
    obtain ⟨item, rest, hq, _, _, hcase⟩ := step_schedule_cases cfg s next h
    rcases hcase with ⟨hv, rfl⟩ | ⟨hv, rfl⟩
    · exact .inl rfl
    · exact .inr ⟨item.url, rfl⟩
  | finish w =>
    obtain ⟨item, hfind, hcase⟩ := step_finish_cases cfg s next w h
    rcases hcase with ⟨hw, rfl⟩ | ⟨status, doc, hw, hp, rfl⟩ |
      ⟨status, doc, result, hw, hp, rfl⟩ <;> exact .inl rfl

theorem filter_not_contains_self (l : List String) :
    l.filter (fun u => !l.contains u) = [] := by
  rw [List.filter_eq_nil_iff]
  intro a ha
  simp [(contains_iff_mem l a).mpr ha, ha]

theorem launch_seg_count (cfg : CrawlConfig) (s next : MState) (a : Action)
    (h : step cfg s a = some next) (u : String) :
    (next.visited.filter (fun v => !s.visited.contains v)).count u ≤ 1 := by
  rcases step_visited_shape cfg s next a h with heq | ⟨x, heq⟩
  · rw [heq, filter_not_contains_self]
    simp
  · rw [heq, List.filter_cons]
    by_cases hx : (!s.visited.contains x) = true
    · rw [if_pos hx, filter_not_contains_self, List.count_singleton]
      split <;> omega
    · rw [if_neg hx, filter_not_contains_self]
      simp

theorem launches_not_mem_of_visited (cfg : CrawlConfig) :
    ∀ (tr : List Action) (s : MState) (u : String),
      u ∈ s.visited → u ∉ launches cfg s tr := by
  intro tr
  induction tr with
  | nil => intro s u hu; simp [launches]
  | cons a tr ih =>
    intro s u hu
    cases hs : step cfg s a with
    | none => simp [launches, hs]
    | some next =>
      simp only [launches, hs]
      intro hmem
      rcases List.mem_append.mp hmem with hmem | hmem
      · have h2 := (List.mem_filter.mp hmem).2
        rw [(contains_iff_mem s.visited u).mpr hu] at h2
        simp at h2
      · exact ih next u (step_visited_mono cfg s next a hs u hu) hmem

theorem launches_count_le_one (cfg : CrawlConfig) :
    ∀ (tr : List Action) (s : MState) (u : String), (launches cfg s tr).count u ≤ 1 := by
  intro tr
  induction tr with
  | nil => intro s u; simp [launches]
  | cons a tr ih =>
    intro s u
    cases hs : step cfg s a with
    | none => simp [launches, hs]
    | some next =>
      simp only [launches, hs, List.count_append]
      by_cases hu : u ∈ next.visited.filter (fun v => !s.visited.contains v)
      · have h1 : u ∈ next.visited := (List.mem_filter.mp hu).1
        have h2 : (launches cfg next tr).count u = 0 :=
          List.count_eq_zero.mpr (launches_not_mem_of_visited cfg tr next u h1)
        have h3 := launch_seg_count cfg s next a hs u
        omega
      · have h2 : (next.visited.filter (fun v => !s.visited.contains v)).count u = 0 :=
          List.count_eq_zero.mpr hu
        have h3 := ih next u
        omega

/-- The urls the crawler is answerable for: keys of the results map plus the
urls of the in-flight fetches. -/
def trackedUrls (s : MState) : List String :=
  s.results.map Prod.fst ++ s.active.map QueueItem.url

theorem once_inv_step (cfg : CrawlConfig) (s : MState) (a : Action) (next : MState)
    (h : step cfg s a = some next)
    (hs : (trackedUrls s).Nodup ∧ ∀ u ∈ trackedUrls s, u ∈ s.visited) :
    (trackedUrls next).Nodup ∧ ∀ u ∈ trackedUrls next, u ∈ next.visited := by
  obtain ⟨hnd, hsub⟩ := hs
  cases a with
  | schedule =>
    obtain ⟨item, rest, hq, _, _, hcase⟩ := step_schedule_cases cfg s next h
    rcases hcase with ⟨hv, hnext⟩ | ⟨hv, hnext⟩
    · have ht : trackedUrls next = trackedUrls s := by subst hnext; rfl
      have hvis : next.visited = s.visited := by rw [hnext]
      rw [ht, hvis]
      exact ⟨hnd, hsub⟩
    · have hnotmem : item.url ∉ s.visited := by
        intro hmem
        rw [← contains_iff_mem] at hmem
        rw [hmem] at hv
        cases hv
      have hperm : (trackedUrls next).Perm (item.url :: trackedUrls s) := by
        rw [hnext]
        simp only [trackedUrls, List.map_cons]
        exact List.perm_middle
      have hvis : next.visited = item.url :: s.visited := by rw [hnext]
      constructor
      · refine hperm.nodup_iff.mpr (List.nodup_cons.mpr ⟨?_, hnd⟩)
        exact fun hmem => hnotmem (hsub _ hmem)
      · intro u hu
        rw [hvis]
        rcases List.mem_cons.mp (hperm.subset hu) with rfl | hu2
        · exact List.mem_cons_self _ _
        · exact List.mem_cons_of_mem _ (hsub u hu2)
  | finish w =>
    obtain ⟨item, hfind, hcase⟩ := step_finish_cases cfg s next w h
    have hpermA := find?_perm_eraseP (fun it => it.url == w) s.active item hfind
    have hpermU : (s.active.map QueueItem.url).Perm
        (item.url :: (s.active.eraseP (fun it => it.url == w)).map QueueItem.url) := by
      simpa using hpermA.map QueueItem.url
    rcases hcase with ⟨hw, hnext⟩ | ⟨status, doc, hw, hp, hnext⟩ |
      ⟨status, doc, result, hw, hp, hnext⟩
    · have heq : trackedUrls next = s.results.map Prod.fst ++ (item.url ::
          (s.active.eraseP (fun it => it.url == w)).map QueueItem.url) := by
        rw [hnext]
        simp [trackedUrls, List.append_assoc]
      have hvis : next.visited = s.visited := by rw [hnext]
      have hT : (trackedUrls next).Perm (trackedUrls s) := by
        rw [heq]
        exact List.Perm.append_left _ hpermU.symm
      rw [hvis]
      exact ⟨hT.nodup_iff.mpr hnd, fun u hu => hsub u (hT.subset hu)⟩
    · have hT : List.Sublist (trackedUrls next) (trackedUrls s) := by
        rw [hnext]
        simp only [trackedUrls]
        exact ((List.eraseP_sublist _).map _).append_left _
      have hvis : next.visited = s.visited := by rw [hnext]
      rw [hvis]
      exact ⟨hnd.sublist hT, fun u hu => hsub u (hT.subset hu)⟩
    · have heq : trackedUrls next = s.results.map Prod.fst ++ (item.url ::
          (s.active.eraseP (fun it => it.url == w)).map QueueItem.url) := by
        rw [hnext]
        simp [trackedUrls, List.append_assoc]
      have hvis : next.visited = s.visited := by rw [hnext]
      have hT : (trackedUrls next).Perm (trackedUrls s) := by
        rw [heq]
        exact List.Perm.append_left _ hpermU.symm
      rw [hvis]
      exact ⟨hT.nodup_iff.mpr hnd, fun u hu => hsub u (hT.subset hu)⟩

/-- Network for the single-flight scenario: the start page holds 100 identical
links to `b`. -/
def hundredWorld : String → PageOutcome := fun u =>
  if u = "a" then .fetched 200 (simpleDoc (List.replicate 100 "b"))
  else .fetched 200 (simpleDoc [])

/-- Configuration for the 100-identical-links crawl. -/
def hundredConfig : CrawlConfig :=
  { maxDepth := 3
    maxPages := 200
    concurrency := 5
    normalizeUrl := fun u => u
    isInternalUrl := fun _ => true
    resolveUrl := fun href _ => some href
    world := hundredWorld
    startUrl := "a" }

/-- Schedule: admit `a`, finish it (pushing 100 copies of `b`), run the
admission loop over all 100 queue entries, finish `b`. -/
def hundredTrace : List Action :=
  .schedule :: .finish "a" :: (List.replicate 100 .schedule ++ [.finish "b"])

/-- C4: along every schedule of every crawl, each url's fetch is launched at
most once; the keys of the results map are free of duplicates at every
reachable state; and in the concrete crawl whose start page contains 100
identical internal links to `b`, exactly one fetch of `b` is launched. -/
theorem crawl_fetch_once_and_results_nodup :
    (∀ (cfg : CrawlConfig) (s : MState) (tr : List Action) (u : String),
        (launches cfg s tr).count u ≤ 1) ∧
    (∀ (cfg : CrawlConfig) (s : MState), Reachable cfg s →
        (s.results.map Prod.fst).Nodup) ∧
    (launches hundredConfig (initState hundredConfig) hundredTrace).count "b" = 1 := by
  refine ⟨fun cfg s tr u => launches_count_le_one cfg tr s u, ?_, ?_⟩
  · intro cfg s hr
    have hinv := reachable_invariant cfg
      (fun s => (trackedUrls s).Nodup ∧ ∀ u ∈ trackedUrls s, u ∈ s.visited)
      ⟨by simp [trackedUrls, initState], by simp [trackedUrls, initState]⟩
      (fun s a next hst hp => once_inv_step cfg s a next hst hp) s hr
    exact hinv.1.of_append_left
  · rfl

/-- Witness for C4 at the concrete 100-link crawl and a concrete reachable
state. -/
theorem crawl_fetch_once_witness :
    (launches overrunConfig (initState overrunConfig) overrunTrace).count "b" ≤ 1 ∧
    ((initState overrunConfig).results.map Prod.fst).Nodup :=
  ⟨crawl_fetch_once_and_results_nodup.1 overrunConfig (initState overrunConfig)
      overrunTrace "b",
   crawl_fetch_once_and_results_nodup.2.1 overrunConfig (initState overrunConfig) ⟨[], rfl⟩⟩

/-! ### C2: termination of `crawl()` -/

/-- Network where the start page `a` (status 200) links to one internal page
`b`. -/
def budgetStuckWorld : String → PageOutcome := fun u =>
  if u = "a" then .fetched 200 (simpleDoc ["b"]) else .fetched 200 (simpleDoc [])

/-- Options with `maxPages = 1` (any budget smaller than the site works). -/
def budgetStuckConfig : CrawlConfig :=
  { maxDepth := 3
    maxPages := 1
    concurrency := 5
    normalizeUrl := fun u => u
    isInternalUrl := fun _ => true
    resolveUrl := fun href _ => some href
    world := budgetStuckWorld
    startUrl := "a" }

/-- C2 (code bug): when the page budget is reached while the queue is still
non-empty, `crawl()` never terminates.  After the JavaScript-feasible schedule
[admit `a`; `a`'s fetch completes] the state has one result (= `maxPages`),
nothing in flight and a non-empty queue: the loop exit condition is false,
yet no admission step is enabled (`results.size < maxPages` fails and nothing
else ever dequeues) and no completion step exists — the outer `while` loop of
`crawl()` spins on its 100 ms sleep forever and the returned promise never
resolves. -/
theorem crawl_stuck_when_budget_reached_with_queue :
    ∃ s : MState,
      steps budgetStuckConfig (initState budgetStuckConfig) [.schedule, .finish "a"]
          = some s ∧
      loopDone s = false ∧
      s.queue ≠ [] ∧ activeRequests s = 0 ∧
      s.results.length = budgetStuckConfig.maxPages ∧
      step budgetStuckConfig s .schedule = none ∧
      (∀ u, step budgetStuckConfig s (.finish u) = none) := by
  refine ⟨⟨["a"],
    [("a", ⟨"a", 200, none, none, none,
      ["Missing title tag", "Missing meta description", "Missing H1 tag"], ["b"], []⟩)],
    [⟨"b", 1, "a"⟩], [], 0⟩, ?_, rfl, ?_, rfl, rfl, rfl, fun _ => rfl⟩
  · rfl
  · simp

/-! ### C3: per-page failure recovery -/

/-- The cheerio view of a page whose body is `<img src="http://">`: one image
tag with an unresolvable `src` and no alt attribute. -/
def crashDoc : Doc := ⟨"", none, "", [], [("http://", none)]⟩

/-- URL resolver reflecting Node's WHATWG parser on these inputs:
`new URL("http://", base)` throws for any base (absolute special scheme with
empty host); the other strings used here resolve. -/
def crashResolver : String → String → Option String :=
  fun src _ => if src = "http://" then none else some src

/-- Network serving the crashing page for every url. -/
def crashConfig : CrawlConfig :=
  { maxDepth := 3
    maxPages := 10
    concurrency := 5
    normalizeUrl := fun u => u
    isInternalUrl := fun _ => true
    resolveUrl := crashResolver
    world := fun _ => .fetched 200 crashDoc
    startUrl := "a" }

/-- C3 (code bug): a per-page PARSE failure is not recovered locally.
Resolving the image `src` throws inside `parsePage` — the image loop, unlike
the link loop, has no try/catch — and the exception escapes `processUrl`
before the `activeRequests` decrement and before any result is stored.  After
the schedule [admit `a`; `a`'s fetch completes and parsing throws] there is no
synthetic status-0 result (`results = []`), `activeRequests` is stuck at 1
with nothing actually in flight, the loop exit condition never becomes true
and no further step is enabled: `crawl()` never settles (and the rejected
`processUrl` promise is unhandled), contradicting the claimed recovery as
data. -/
theorem parsePage_image_crash_hangs_crawl :
    parsePage crashResolver "a" crashDoc 200 = .error () ∧
    (∃ s : MState,
      steps crashConfig (initState crashConfig) [.schedule, .finish "a"] = some s ∧
      s.results = [] ∧ s.crashed = 1 ∧ activeRequests s = 1 ∧ loopDone s = false ∧
      step crashConfig s .schedule = none ∧
      (∀ u, step crashConfig s (.finish u) = none)) :=
  ⟨rfl, ⟨["a"], [], [], [], 1⟩, rfl, rfl, rfl, rfl, rfl, rfl, fun _ => rfl⟩

end SeoCli
